import Mathlib

/-!
Verification of the `ytt` caption-transcript extractor.

This file shallowly embeds the parts of the program that the checked
properties concern:

* `src/parser.rs` — the Caption Document Parser (`TranscriptParser`),
  including its private `html_escape` module (`decode_entity`,
  `decode_html_entities`);
* `src/main.rs` — the playlist processing loop in `run` and the
  `sanitize_filename` helper;
* `src/error.rs` — the `TranscriptError` taxonomy.

Modelling conventions:

* Rust `f64` timing values are modelled as `ℚ`.  Every numeric literal
  appearing in the properties (`2.5`, `3.0`, `2500`, `1000`, `-1.5`) is
  exactly representable in `f64`, and all arithmetic performed on them
  (`/ 1000.0`) is exact, so `ℚ` and `f64` agree on every input the
  theorems touch.  Non-finite `f64` literals (`inf`, `NaN`) and overflow
  to infinity are outside the model.
* Rust `String` is modelled as Lean `String`; where Rust trims Unicode
  `White_Space` the model trims the ASCII whitespace characters, which
  coincide on every string the theorems touch.
* The third-party `quick_xml` pull reader is modelled at two levels: an
  `Event` type mirroring the events the parser consumes, and a small
  tokenizer producing the event stream of a document, faithful to a
  reader configured with `trim_text(true)` on the well-formed fragment
  exercised here (tags with double-quoted attributes, end tags,
  self-closing tags, character data).
* Fallible Rust code (`Result`, panics) is modelled with `Except` and
  `Option`.
-/

/-! ## Characters, digits and numbers -/

/-- Value of a decimal digit list, most significant first
(`ds.foldl (a*10 + digit) 0`). -/
def digitsVal (ds : List Char) : Nat :=
  ds.foldl (fun a c => a * 10 + (c.toNat - 48)) 0

/-- Hexadecimal digit test (`0-9`, `a-f`, `A-F`). -/
def isHexDigitChar (c : Char) : Bool :=
  c.isDigit || ('a' ≤ c && c ≤ 'f') || ('A' ≤ c && c ≤ 'F')

/-- Value of one hexadecimal digit. -/
def hexDigitVal (c : Char) : Nat :=
  if c.isDigit then c.toNat - 48
  else if 'a' ≤ c && c ≤ 'f' then c.toNat - 87
  else c.toNat - 55

/-- Value of a hexadecimal digit list, most significant first. -/
def hexDigitsVal (ds : List Char) : Nat :=
  ds.foldl (fun a c => a * 16 + hexDigitVal c) 0

/-- Rust `u32::MAX`. -/
def u32Max : Nat := 4294967295

/-- Model of Rust `u32::from_str_radix(s, 16)`: optional leading `+`,
then at least one hex digit, rejecting values above `u32::MAX`
(`parser.rs:234`). -/
def fromStrRadix16 (s : String) : Option Nat :=
  let cs := match s.data with
    | '+' :: r => r
    | cs => cs
  if cs.isEmpty then none
  else if cs.all isHexDigitChar then
    let n := hexDigitsVal cs
    if n ≤ u32Max then some n else none
  else none

/-- Model of Rust `str::parse::<u32>()`: optional leading `+`, then at
least one decimal digit, rejecting values above `u32::MAX`
(`parser.rs:242`). -/
def parseU32 (s : String) : Option Nat :=
  let cs := match s.data with
    | '+' :: r => r
    | cs => cs
  if cs.isEmpty then none
  else if cs.all Char.isDigit then
    let n := digitsVal cs
    if n ≤ u32Max then some n else none
  else none

/-- Model of Rust `char::from_u32`: any code point outside the
surrogate range `0xD800..=0xDFFF` and below `0x110000`. -/
def charFromU32 (n : Nat) : Option Char :=
  if n < 55296 ∨ (57344 ≤ n ∧ n < 1114112) then some (Char.ofNat n) else none

/-- Model of Rust `str::parse::<f64>()` on finite decimal literals:
optional sign, decimal digits with an optional fractional part (at
least one digit overall), and an optional `e`/`E` exponent with its own
optional sign and at least one digit.  The value is the exact rational
value of the literal, assembled as one numerator/denominator pair and
packed with `Rat.divInt` (so that concrete instances evaluate by kernel
reduction).  Rust additionally accepts the non-finite literals `inf`,
`infinity` and `nan` (case-insensitive, sign-prefixed), which `ℚ`
cannot represent; these are recognized separately by `rustNonFinite`
below, and every hypothesis whose conclusion depends on the sign of
the parsed value excludes them through it.  `f64` rounding and
overflow to infinity preserve sign and zero-ness, which is all the
theorems below use. -/
def parseF64Chars (cs : List Char) : Option ℚ :=
  let p := match cs with
    | '-' :: r => (true, r)
    | '+' :: r => (false, r)
    | _ => (false, cs)
  let neg := p.1
  let cs1 := p.2
  let intDs := cs1.takeWhile Char.isDigit
  let cs2 := cs1.dropWhile Char.isDigit
  let q := match cs2 with
    | '.' :: r => (r.takeWhile Char.isDigit, r.dropWhile Char.isDigit)
    | _ => ([], cs2)
  let fracDs := q.1
  let cs3 := q.2
  if intDs.isEmpty && fracDs.isEmpty then none
  else
    let n0 : Nat := digitsVal intDs * 10 ^ fracDs.length + digitsVal fracDs
    let d0 : Nat := 10 ^ fracDs.length
    let sn : Int := if neg then -(n0 : Int) else (n0 : Int)
    match cs3 with
    | [] => some (Rat.divInt sn d0)
    | e :: r =>
      if e = 'e' ∨ e = 'E' then
        let pe := match r with
          | '-' :: r2 => (true, r2)
          | '+' :: r2 => (false, r2)
          | _ => (false, r)
        let eneg := pe.1
        let r1 := pe.2
        let eds := r1.takeWhile Char.isDigit
        let r2 := r1.dropWhile Char.isDigit
        if eds.isEmpty ∨ ¬ r2.isEmpty then none
        else some (if eneg then Rat.divInt sn (d0 * 10 ^ digitsVal eds)
                   else Rat.divInt (sn * 10 ^ digitsVal eds) d0)
      else none

/-- Model of Rust `str::parse::<f64>()` (see `parseF64Chars`). -/
def parseF64 (s : String) : Option ℚ := parseF64Chars s.data

/-- Division of a parsed timing value by `1000.0` (`parser.rs:131,149`),
performed on the numerator/denominator representation so that concrete
instances evaluate by kernel reduction.  `divBy1000_eq` below proves it
equal to division by `1000` in `ℚ`. -/
def divBy1000 (q : ℚ) : ℚ := Rat.divInt q.num (q.den * 1000)

/-! ## The `html_escape` module of `parser.rs` (lines 198-253) -/

/-- Source `parser.rs:223-253`, `decode_entity`: the six named entities, then
hexadecimal (`#x`/`#X`) and decimal (`#`) numeric character
references; anything unrecognized — unknown names, malformed or
out-of-range numbers — is re-emitted verbatim as `&entity;`. -/
def decode_entity (entity : String) : String :=
  if entity = "quot" then "\""
  else if entity = "amp" then "&"
  else if entity = "apos" then "\x27"
  else if entity = "lt" then "<"
  else if entity = "gt" then ">"
  else if entity = "nbsp" then " "
  else
    match entity.data with
    | '#' :: 'x' :: rest =>
      match (fromStrRadix16 (String.mk rest)).bind charFromU32 with
      | some c => String.singleton c
      | none => "&" ++ entity ++ ";"
    | '#' :: 'X' :: rest =>
      match (fromStrRadix16 (String.mk rest)).bind charFromU32 with
      | some c => String.singleton c
      | none => "&" ++ entity ++ ";"
    | '#' :: rest =>
      match (parseU32 (String.mk rest)).bind charFromU32 with
      | some c => String.singleton c
      | none => "&" ++ entity ++ ";"
    | _ => "&" ++ entity ++ ";"

/-- The entity-name scan of `decode_html_entities` (`parser.rs:205-212`):
characters up to the first `;` form the entity name; the `;` is
consumed.  When no `;` follows, the rest of the input is the name. -/
def splitEntity (cs : List Char) : List Char × List Char :=
  (cs.takeWhile (fun c => c ≠ ';'), (cs.dropWhile (fun c => c ≠ ';')).drop 1)

/-- Source `parser.rs:199-221`, `decode_html_entities`, as a fuel-indexed
structural recursion.  Each step consumes at least one input character,
so fuel `cs.length + 1` (supplied by `decode_html_entities`) is never
exhausted. -/
def decodeHtmlGo : Nat → List Char → String
  | 0, _ => ""
  | _ + 1, [] => ""
  | fuel + 1, '&' :: rest =>
    decode_entity (String.mk (splitEntity rest).1) ++ decodeHtmlGo fuel (splitEntity rest).2
  | fuel + 1, c :: rest => String.singleton c ++ decodeHtmlGo fuel rest

/-- Source `parser.rs:199-221`, `decode_html_entities`. -/
def decode_html_entities (s : String) : String :=
  decodeHtmlGo (s.data.length + 1) s.data

/-! ## The event layer of the `quick_xml` reader

`TranscriptParser::parse` and its element helpers consume a stream of
`quick_xml` events.  `Event` mirrors the constructors the parser
inspects; `Decl`, `Comment`, `CData` and `PI` events all fall into the
same catch-all arms as `empty` does and are not separated. -/

inductive Event where
  | start (name : String) (attrs : List (String × String))
  | endTag (name : String)
  | text (raw : String)
  | empty (name : String) (attrs : List (String × String))
  | eof
  | err (msg : String)
deriving DecidableEq, Repr

/-- The transcript item of `lib.rs` (`crate::TranscriptItem`): cue text,
start time in seconds, duration in seconds. -/
structure TranscriptItem where
  text : String
  start : ℚ
  duration : ℚ
deriving DecidableEq, Repr

/-- Attribute lookup of `parser.rs:53-59` etc.: the first attribute with
the given key (UTF-8 decoding of the value never fails in the model). -/
def findAttr (key : String) (attrs : List (String × String)) : Option String :=
  (attrs.find? (fun a => a.1 = key)).map (fun a => a.2)

/-- Dialect-A timing attribute (`parser.rs:53-65` and `67-79`): decimal
seconds, `0.0` when the attribute is absent or does not parse. -/
def attrSeconds (key : String) (attrs : List (String × String)) : ℚ :=
  ((findAttr key attrs).bind parseF64).getD 0

/-- Dialect-B timing attribute (`parser.rs:118-134` and `136-152`):
integer milliseconds divided by `1000.0`, `0.0` when the attribute is
absent or does not parse. -/
def attrMillis (key : String) (attrs : List (String × String)) : ℚ :=
  (((findAttr key attrs).bind parseF64).map divBy1000).getD 0

/-- Rust `str::trim` (`parser.rs:102,107`): leading and trailing
whitespace removed.  Rust trims Unicode `White_Space`; the model trims
`Char.isWhitespace` (space, tab, CR, LF), which agrees on every string
the theorems touch. -/
def rustTrim (s : String) : String :=
  String.mk (((s.data.dropWhile Char.isWhitespace).reverse.dropWhile Char.isWhitespace).reverse)

/-- Rust `String::ends_with(' ')` (`parser.rs:171`). -/
def endsWithSpace (s : String) : Bool := s.data.getLast? = some ' '

/-- Source `parser.rs:102-110` (and identically `186-194`): an element whose
decoded, trimmed text is empty yields no item; otherwise the item
carries the trimmed text and the element's timing values. -/
def finishItem (start duration : ℚ) (text : String) : Option TranscriptItem :=
  if (rustTrim text).data.isEmpty then none
  else some ⟨rustTrim text, start, duration⟩

/-- Model of `quick_xml`'s `BytesText::unescape`: resolves the five
predefined XML entities and numeric character references, and fails on
any other entity or on a `&` without a terminating `;`.  Returns the
decoded text, or `none` for the unescape error that `parser.rs:88-89`
maps into a `Failed to unescape` message. -/
def xmlUnescapeGo : Nat → List Char → Option String
  | 0, _ => none
  | _ + 1, [] => some ""
  | fuel + 1, '&' :: rest =>
    let ent := rest.takeWhile (fun c => c ≠ ';')
    let rest2 := rest.dropWhile (fun c => c ≠ ';')
    match rest2 with
    | ';' :: rest3 =>
      let decoded : Option Char :=
        match ent with
        | 'l' :: 't' :: [] => some '<'
        | 'g' :: 't' :: [] => some '>'
        | 'a' :: 'm' :: 'p' :: [] => some '&'
        | 'a' :: 'p' :: 'o' :: 's' :: [] => some (Char.ofNat 39)
        | 'q' :: 'u' :: 'o' :: 't' :: [] => some '"'
        | '#' :: 'x' :: ds => (fromStrRadix16 (String.mk ds)).bind charFromU32
        | '#' :: 'X' :: ds => (fromStrRadix16 (String.mk ds)).bind charFromU32
        | '#' :: ds => (parseU32 (String.mk ds)).bind charFromU32
        | _ => none
      match decoded with
      | some c => (xmlUnescapeGo fuel rest3).map (fun t => String.singleton c ++ t)
      | none => none
    | _ => none
  | fuel + 1, c :: rest => (xmlUnescapeGo fuel rest).map (fun t => String.singleton c ++ t)

/-- See `xmlUnescapeGo`. -/
def xmlUnescape (s : String) : Option String :=
  xmlUnescapeGo (s.data.length + 1) s.data

/-- The control state of `TranscriptParser::parse`: scanning at the top
level (`parser.rs:23-43`), inside a `text` element (`parser.rs:84-100`,
carrying the element's already-extracted start/duration and the
accumulated text), or inside a `p` element (`parser.rs:157-184`). -/
inductive ParseMode where
  | top
  | inText (start duration : ℚ) (acc : String)
  | inP (start duration : ℚ) (acc : String)

/-- The event loop of `TranscriptParser::parse` together with the inner
loops of `parse_text_element` and `parse_p_element`, flattened into one
single-pass state machine over the event stream (the Rust nested loops
consume the same reader cursor, so they are exactly this machine):

* `top` + `Start "text"`/`Start "p"`: extract the timing attributes
  (`parser.rs:53-79` resp. `118-152`) and enter the element state; any
  other event is ignored, `Eof` ends the scan, a reader error becomes
  `XML parse error: _` (`parser.rs:38-40`).
* `inText`: `Text` is unescaped, entity-decoded and appended
  (`parser.rs:86-93`); `End "text"` finishes the element and emits an
  item unless the trimmed text is empty (`parser.rs:94,102-110`);
  `Eof` is `Unexpected EOF in text element` (`parser.rs:95`); reader
  errors as above (`parser.rs:96`); everything else is ignored
  (`parser.rs:97`).
* `inP`: additionally `Start "s"`/`Start "br"` appends a single space
  unless the accumulated text already ends in one (`parser.rs:167-177`);
  `End "p"` finishes (`parser.rs:178`); `Eof` is `Unexpected EOF in p
  element` (`parser.rs:179`).

An exhausted event list behaves like `Eof` (the Rust reader always
produces `Eof` before the stream ends, so the two agree on reader
output). -/
def parseLoop : ParseMode → List Event → List TranscriptItem →
    Except String (List TranscriptItem)
  | .top, [], items => .ok items
  | .top, Event.start name attrs :: es, items =>
    if name = "text" then
      parseLoop (.inText (attrSeconds "start" attrs) (attrSeconds "dur" attrs) "") es items
    else if name = "p" then
      parseLoop (.inP (attrMillis "t" attrs) (attrMillis "d" attrs) "") es items
    else parseLoop .top es items
  | .top, Event.eof :: _, items => .ok items
  | .top, Event.err m :: _, _ => .error ("XML parse error: " ++ m)
  | .top, _ :: es, items => parseLoop .top es items
  | .inText _ _ _, [], _ => .error "Unexpected EOF in text element"
  | .inText s d acc, Event.text raw :: es, items =>
    match xmlUnescape raw with
    | none => .error ("Failed to unescape: " ++ raw)
    | some u => parseLoop (.inText s d (acc ++ decode_html_entities u)) es items
  | .inText s d acc, Event.endTag name :: es, items =>
    if name = "text" then parseLoop .top es (items ++ (finishItem s d acc).toList)
    else parseLoop (.inText s d acc) es items
  | .inText _ _ _, Event.eof :: _, _ => .error "Unexpected EOF in text element"
  | .inText _ _ _, Event.err m :: _, _ => .error ("XML parse error: " ++ m)
  | .inText s d acc, _ :: es, items => parseLoop (.inText s d acc) es items
  | .inP _ _ _, [], _ => .error "Unexpected EOF in p element"
  | .inP s d acc, Event.text raw :: es, items =>
    match xmlUnescape raw with
    | none => .error ("Failed to unescape: " ++ raw)
    | some u => parseLoop (.inP s d (acc ++ decode_html_entities u)) es items
  | .inP s d acc, Event.start name _ :: es, items =>
    if name = "s" ∨ name = "br" then
      parseLoop (.inP s d (if endsWithSpace acc then acc else acc ++ " ")) es items
    else parseLoop (.inP s d acc) es items
  | .inP s d acc, Event.endTag name :: es, items =>
    if name = "p" then parseLoop .top es (items ++ (finishItem s d acc).toList)
    else parseLoop (.inP s d acc) es items
  | .inP _ _ _, Event.eof :: _, _ => .error "Unexpected EOF in p element"
  | .inP _ _ _, Event.err m :: _, _ => .error ("XML parse error: " ++ m)
  | .inP s d acc, _ :: es, items => parseLoop (.inP s d acc) es items

/-! ## A tokenizer for concrete documents

`quick_xml`'s reader, configured with `trim_text(true)`
(`parser.rs:17-18`), modelled on the document fragment exercised here:
start tags with double- or single-quoted attributes, end tags,
self-closing tags (which the reader reports as `Empty` events, not
`Start`), and character data trimmed at both ends with whitespace-only
runs suppressed.  Exotica (comments, CDATA, processing instructions,
`>` inside attribute values) are outside the model; no document in the
theorems uses them. -/

/-- One attribute scan step: `key="value"` or `key='value'` pairs
separated by whitespace.  Scanning stops at malformed input. -/
def scanAttrs : Nat → List Char → List (String × String)
  | 0, _ => []
  | fuel + 1, cs =>
    let cs1 := cs.dropWhile Char.isWhitespace
    let key := cs1.takeWhile (fun c => c ≠ '=' && !c.isWhitespace)
    let cs2 := cs1.dropWhile (fun c => c ≠ '=' && !c.isWhitespace)
    match cs2 with
    | '=' :: q :: r =>
      if q = '"' ∨ q = Char.ofNat 39 then
        let v := r.takeWhile (fun c => c ≠ q)
        let r2 := (r.dropWhile (fun c => c ≠ q)).drop 1
        (String.mk key, String.mk v) :: scanAttrs fuel r2
      else []
    | _ => []

/-- Classify the inside of one `<...>` tag as a `Start` or (when it
ends in `/`) an `Empty` event. -/
def scanTag (inner : List Char) : Event :=
  let selfClosing := inner.getLast? = some '/'
  let body := if selfClosing then inner.dropLast else inner
  let name := body.takeWhile (fun c => !c.isWhitespace && c ≠ '/')
  let rest := body.dropWhile (fun c => !c.isWhitespace && c ≠ '/')
  let attrs := scanAttrs (rest.length + 1) rest
  if selfClosing then Event.empty (String.mk name) attrs
  else Event.start (String.mk name) attrs

/-- The reader loop: tags and trimmed character data until end of
input, ending with `Eof`; end of input in the middle of a tag is a
reader error.  Fuel-indexed structural recursion; each step consumes at
least one character, so fuel `length + 1` is never exhausted. -/
def tokGo : Nat → List Char → List Event
  | 0, _ => [Event.err "fuel"]
  | _ + 1, [] => [Event.eof]
  | fuel + 1, '<' :: rest =>
    match rest with
    | '/' :: r2 =>
      let name := r2.takeWhile (fun c => c ≠ '>')
      match r2.dropWhile (fun c => c ≠ '>') with
      | '>' :: r3 => Event.endTag (String.mk (name.takeWhile (fun c => !c.isWhitespace))) :: tokGo fuel r3
      | _ => [Event.err "unexpected end of input in end tag"]
    | _ =>
      let inner := rest.takeWhile (fun c => c ≠ '>')
      match rest.dropWhile (fun c => c ≠ '>') with
      | '>' :: r3 => scanTag inner :: tokGo fuel r3
      | _ => [Event.err "unexpected end of input in tag"]
  | fuel + 1, c :: rest =>
    let txt := c :: rest.takeWhile (fun x => x ≠ '<')
    let r2 := rest.dropWhile (fun x => x ≠ '<')
    let trimmed := rustTrim (String.mk txt)
    if trimmed.data.isEmpty then tokGo fuel r2
    else Event.text trimmed :: tokGo fuel r2

/-- Event stream of a document string (see `tokGo`). -/
def tokenize (s : String) : List Event := tokGo (s.data.length + 1) s.data

/-! ## `TranscriptParser` (`parser.rs:5-196`) -/

/-- Source `parser.rs:5-7`: the parser struct.  The `_preserve_formatting`
field is stored by `new` and never read by any method. -/
structure TranscriptParser where
  _preserve_formatting : Bool

/-- Source `parser.rs:10-14`, `TranscriptParser::new`. -/
def TranscriptParser.new (preserve_formatting : Bool) : TranscriptParser :=
  ⟨preserve_formatting⟩

/-- Source `parser.rs:16-46`, `TranscriptParser::parse`: run the event loop
over the document's event stream with an empty item list.  The
`_preserve_formatting` field does not occur in the body, exactly as in
the source. -/
def TranscriptParser.parse (_p : TranscriptParser) (xml : String) :
    Except String (List TranscriptItem) :=
  parseLoop .top (tokenize xml) []

/-! ## Structured cue documents

To quantify over well-formed cue documents, a document is modelled as a
list of cue elements wrapped in a `transcript` root; `Cue.events`
produces exactly the event stream the reader reports for it. -/

/-- Inline content of a `p` element: character data, or a nested child
element (such as `s` or `br`) containing character data. -/
inductive PChild where
  | ptext (raw : String)
  | pelem (name : String) (texts : List String)
deriving DecidableEq, Repr

/-- One top-level element of a cue document: a Dialect-A `text` cue, a
Dialect-B `p` cue, or an element of any other name (skipped by the
parser). -/
inductive Cue where
  | textCue (attrs : List (String × String)) (segs : List String)
  | pCue (attrs : List (String × String)) (children : List PChild)
  | otherElem (name : String)
deriving DecidableEq, Repr

/-- Events reported for one inline `p` child. -/
def PChild.events : PChild → List Event
  | .ptext raw => [Event.text raw]
  | .pelem name texts => Event.start name [] :: (texts.map Event.text ++ [Event.endTag name])

/-- Events reported for one cue element. -/
def Cue.events : Cue → List Event
  | .textCue attrs segs => Event.start "text" attrs :: (segs.map Event.text ++ [Event.endTag "text"])
  | .pCue attrs children =>
    Event.start "p" attrs :: ((children.map PChild.events).flatten ++ [Event.endTag "p"])
  | .otherElem name => [Event.start name [], Event.endTag name]

/-- Event stream of a whole document: the `transcript` root, the cues,
the closing root tag, end of input. -/
def docEvents (d : List Cue) : List Event :=
  Event.start "transcript" [] ::
    ((d.map Cue.events).flatten ++ [Event.endTag "transcript", Event.eof])

/-- Well-formedness of a `p` child: its text unescapes, and a nested
element is not itself named `p` (a stray `</p>` would end the cue
early). -/
def PChild.goodB : PChild → Bool
  | .ptext raw => (xmlUnescape raw).isSome
  | .pelem name texts => name ≠ "p" && texts.all (fun t => (xmlUnescape t).isSome)

/-- Well-formedness of a cue: all character data unescapes, and an
`otherElem` is not named `text` or `p`. -/
def Cue.goodB : Cue → Bool
  | .textCue _ segs => segs.all (fun s => (xmlUnescape s).isSome)
  | .pCue _ children => children.all PChild.goodB
  | .otherElem name => name ≠ "text" && name ≠ "p"

/-- Well-formedness of a document. -/
def goodDoc (d : List Cue) : Bool := d.all Cue.goodB

/-- Reference description of the text accumulated from a run of `Text`
events starting from `acc` (`parser.rs:86-93`): each raw segment is
XML-unescaped, entity-decoded and appended; `none` when some segment
fails to unescape. -/
def textAcc (acc : String) : List String → Option String
  | [] => some acc
  | s :: rest =>
    match xmlUnescape s with
    | none => none
    | some u => textAcc (acc ++ decode_html_entities u) rest

/-- The space normalization applied for a nested `s`/`br` child
(`parser.rs:170-173`). -/
def spaceNorm (acc : String) : String :=
  if endsWithSpace acc then acc else acc ++ " "

/-- Reference description of the text accumulated across one inline `p`
child (`parser.rs:157-177`). -/
def pChildAcc (acc : String) : PChild → Option String
  | .ptext raw => (xmlUnescape raw).map (fun u => acc ++ decode_html_entities u)
  | .pelem name texts =>
    textAcc (if name = "s" ∨ name = "br" then spaceNorm acc else acc) texts

/-- Reference description of the text accumulated across a list of
inline `p` children. -/
def pAcc (acc : String) : List PChild → Option String
  | [] => some acc
  | c :: rest =>
    match pChildAcc acc c with
    | none => none
    | some a => pAcc a rest

/-- Reference item of one cue element: timing attributes per dialect,
accumulated text, empty-after-trim cues dropped, elements of other
names skipped. -/
def cueItem : Cue → Option TranscriptItem
  | .textCue attrs segs =>
    (textAcc "" segs).bind (finishItem (attrSeconds "start" attrs) (attrSeconds "dur" attrs))
  | .pCue attrs children =>
    (pAcc "" children).bind (finishItem (attrMillis "t" attrs) (attrMillis "d" attrs))
  | .otherElem _ => none

/-! ## `TranscriptError` (`error.rs:4-55`) -/

/-- The closed error taxonomy of `error.rs`. -/
inductive TranscriptError where
  | VideoUnavailable (v : String)
  | TranscriptsDisabled (v : String)
  | NoTranscriptFound (v : String) (langs : List String)
  | AgeRestricted (v : String)
  | IpBlocked (v : String)
  | RequestBlocked (v : String)
  | VideoUnplayable (v : String) (reason : String)
  | FailedToCreateConsentCookie (v : String)
  | YouTubeDataUnparsable (v : String)
  | PoTokenRequired (v : String)
  | InvalidVideoId (v : String)
  | HttpError (m : String)
  | XmlParseError (m : String)
  | JsonParseError (m : String)
  | NotTranslatable (m : String)
  | TranslationLanguageNotAvailable (m : String)
  | IoError (m : String)
deriving DecidableEq, Repr

/-! ## The playlist loop of `run` (`main.rs:100-108`)

```text
for (index, video_id) in videos_to_process.iter().enumerate() {
    eprintln!(...);
    if let Err(e) = process_single_video(&api, &args, video_id, ...).await {
        eprintln!("Error processing video {}: {}", video_id, e);
        continue;   // next video, do not abort
    }
}
return Ok(());
```

`process_single_video` is abstracted as a function from a video id to
`Except TranscriptError Unit`; the loop is modelled together with the
per-video reporting it performs: `playlistRun` returns, for each video
in order, the error it reported for it (if any), and the overall result
of the loop. -/

/-- The playlist loop: processes every id in order, records a failed
video's error (reported to stderr in the source) and continues; after
the loop, `Ok(())`. -/
def playlistRun (process : String → Except TranscriptError Unit) :
    List String → List (String × Option TranscriptError) × Except TranscriptError Unit
  | [] => ([], .ok ())
  | v :: rest =>
    let step := playlistRun process rest
    match process v with
    | .ok _ => ((v, none) :: step.1, step.2)
    | .error e => ((v, some e) :: step.1, step.2)

/-! ## `sanitize_filename` (`main.rs:471-511`) -/

/-- Model of Rust `char::is_alphanumeric` restricted to the character
ranges relevant here: ASCII alphanumerics, the Latin-1 letters
(`ª µ º À-Ö Ø-ö ø-ÿ`) and the Latin Extended-A/B and IPA blocks
(`U+0100-U+02C1`).  Outside these ranges the model returns `false`;
every character appearing in the theorems lies inside them, where the
model agrees with Unicode. -/
def is_alphanumeric (c : Char) : Bool :=
  c.isAlphanum ||
  c.toNat = 170 || c.toNat = 181 || c.toNat = 186 ||
  (192 ≤ c.toNat && c.toNat ≤ 214) || (216 ≤ c.toNat && c.toNat ≤ 246) ||
  (248 ≤ c.toNat && c.toNat ≤ 705)

/-- The character map of `main.rs:473-482`: anything that is not
alphanumeric or one of space, `-`, `_`, `.` becomes `_`. -/
def sanitizeMap (c : Char) : Char :=
  if is_alphanumeric c || c = ' ' || c = '-' || c = '_' || c = '.' then c else '_'

/-- Rust `str::split_whitespace`: maximal non-whitespace runs, with
empty runs dropped. -/
def splitWSGo : List Char → List Char → List (List Char)
  | [], cur => if cur.isEmpty then [] else [cur.reverse]
  | c :: rest, cur =>
    if c.isWhitespace then
      if cur.isEmpty then splitWSGo rest [] else cur.reverse :: splitWSGo rest []
    else splitWSGo rest (c :: cur)

/-- See `splitWSGo`. -/
def splitWS (cs : List Char) : List (List Char) := splitWSGo cs []

/-- The underscore-collapsing fold of `main.rs:490-501`: a `_` is
dropped when the accumulator already ends in `_`. -/
def dedupUnderscore (cs : List Char) : List Char :=
  cs.foldl (fun acc c =>
    if c = '_' then (if acc.getLast? = some '_' then acc else acc ++ ['_'])
    else acc ++ [c]) []

/-- UTF-8 byte length of a character list (Rust `str::len`). -/
def utf8Len (cs : List Char) : Nat := (cs.map Char.utf8Size).sum

/-- Model of the Rust byte slice `&s[..n]` (`main.rs:505`): the first
`n` bytes, or `none` — a panic — when `n` is not a character
boundary. -/
def byteTruncate : List Char → Nat → Option (List Char)
  | _, 0 => some []
  | [], _ + 1 => none
  | c :: rest, n + 1 =>
    if c.utf8Size ≤ n + 1 then
      (byteTruncate rest (n + 1 - c.utf8Size)).map (fun l => c :: l)
    else none

/-- Rust `str::trim_end_matches('_')` (`main.rs:510`). -/
def trimEndUnderscore (cs : List Char) : List Char :=
  (cs.reverse.dropWhile (fun c => c = '_')).reverse

/-- Source `main.rs:471-511`, `sanitize_filename`.  Here `none` models a panic: the
byte-truncation step `&sanitized[..200]` panics when byte 200 is not a
character boundary.  The `trim` and `split_whitespace` steps run on the
output of the character map, where the only whitespace character left
is the ASCII space, so modelling them with `Char.isWhitespace` is
faithful. -/
def sanitize_filename (title : String) : Option String :=
  let sanitized := title.data.map sanitizeMap
  let sanitized := (sanitized.dropWhile Char.isWhitespace).reverse.dropWhile Char.isWhitespace |>.reverse
  let sanitized := List.intercalate ['_'] (splitWS sanitized)
  let sanitized := dedupUnderscore sanitized
  if utf8Len sanitized > 200 then
    (byteTruncate sanitized 200).map (fun cs => String.mk (trimEndUnderscore cs))
  else some (String.mk (trimEndUnderscore sanitized))

/-! ## Non-negativity side conditions (for the amended C3) -/

/-- ASCII lower-casing of one character. -/
def asciiLower (c : Char) : Char :=
  if 'A' ≤ c && c ≤ 'Z' then Char.ofNat (c.toNat + 32) else c

/-- The non-finite literals accepted by Rust `str::parse::<f64>()`
besides the finite grammar modelled by `parseF64`: an optional sign
followed by `inf`, `infinity` or `nan`, case-insensitive.  Rust parses
these to `±inf`/`NaN`, values `ℚ` cannot represent, so hypotheses that
must track the real parser's sign behaviour exclude them explicitly
(together, `parseF64` and `rustNonFinite` cover Rust's whole accepted
grammar: every other string fails Rust's parse as well). -/
def rustNonFinite (v : String) : Bool :=
  let cs := match v.data with
    | '+' :: r => r
    | '-' :: r => r
    | cs => cs
  let l := cs.map asciiLower
  l = ['i', 'n', 'f'] || l = ['i', 'n', 'f', 'i', 'n', 'i', 't', 'y'] || l = ['n', 'a', 'n']

/-- An attribute value that is none of Rust's non-finite literals and
either fails to parse as a (finite) number or parses to a non-negative
value.  Excluding `rustNonFinite` keeps the predicate faithful to the
real parser: a value such as `-inf` parses in Rust to a negative
timing, while the finite model would treat it as unparsable.  On the
remaining strings the model's parse succeeds exactly when Rust's does,
with the same sign (for literals whose magnitude overflows `f64`, Rust
rounds to `±inf`, which again has the same sign). -/
def attrValNonneg (v : String) : Bool :=
  !rustNonFinite v &&
    match parseF64 v with
    | none => true
    | some q => 0 ≤ q

/-- The timing attribute `key`, when present, satisfies
`attrValNonneg`.  Attributes other than the dialect's two timing
attributes are not constrained. -/
def timingAttrOk (key : String) (attrs : List (String × String)) : Bool :=
  match findAttr key attrs with
  | none => true
  | some v => attrValNonneg v

/-- The timing attributes of a cue element (`start`/`dur` for Dialect
A, `t`/`d` for Dialect B) are non-negative in the sense of
`attrValNonneg`; other attributes and other elements are
unconstrained. -/
def Cue.attrsNonnegB : Cue → Bool
  | .textCue attrs _ => timingAttrOk "start" attrs && timingAttrOk "dur" attrs
  | .pCue attrs _ => timingAttrOk "t" attrs && timingAttrOk "d" attrs
  | .otherElem _ => true

/-! ## Compositional behaviour of the event loop -/

/-- A run of `Text` events inside a `text` element accumulates exactly
`textAcc`. -/
theorem parseLoop_inText_texts (segs : List String) :
    ∀ (acc t : String) (s d : ℚ) (es : List Event) (items : List TranscriptItem),
      textAcc acc segs = some t →
      parseLoop (.inText s d acc) (segs.map Event.text ++ es) items =
        parseLoop (.inText s d t) es items := by
  induction segs with
  | nil =>
    intro acc t s d es items h
    simp only [textAcc] at h
    cases h
    simp
  | cons seg rest ih =>
    intro acc t s d es items h
    simp only [textAcc] at h
    cases hu : xmlUnescape seg with
    | none => rw [hu] at h; exact absurd h (by simp)
    | some u =>
      rw [hu] at h
      simpa [parseLoop, hu] using ih _ t s d es items h

/-- A run of `Text` events inside a `p` element accumulates exactly
`textAcc`. -/
theorem parseLoop_inP_texts (segs : List String) :
    ∀ (acc t : String) (s d : ℚ) (es : List Event) (items : List TranscriptItem),
      textAcc acc segs = some t →
      parseLoop (.inP s d acc) (segs.map Event.text ++ es) items =
        parseLoop (.inP s d t) es items := by
  induction segs with
  | nil =>
    intro acc t s d es items h
    simp only [textAcc] at h
    cases h
    simp
  | cons seg rest ih =>
    intro acc t s d es items h
    simp only [textAcc] at h
    cases hu : xmlUnescape seg with
    | none => rw [hu] at h; exact absurd h (by simp)
    | some u =>
      rw [hu] at h
      simpa [parseLoop, hu] using ih _ t s d es items h

/-- One inline `p` child transforms the accumulated text exactly as
`pChildAcc` describes. -/
theorem parseLoop_inP_child (c : PChild) (acc t : String) (s d : ℚ)
    (es : List Event) (items : List TranscriptItem)
    (hg : PChild.goodB c = true) (h : pChildAcc acc c = some t) :
    parseLoop (.inP s d acc) (c.events ++ es) items =
      parseLoop (.inP s d t) es items := by
  cases c with
  | ptext raw =>
    cases hu : xmlUnescape raw with
    | none => simp [pChildAcc, hu] at h
    | some u =>
      simp only [pChildAcc, hu, Option.map_some] at h
      cases h
      simp [PChild.events, parseLoop, hu]
  | pelem name texts =>
    simp only [PChild.goodB, Bool.and_eq_true, decide_eq_true_eq] at hg
    simp only [pChildAcc] at h
    by_cases hn : name = "s" ∨ name = "br"
    · rw [if_pos hn] at h
      have step := parseLoop_inP_texts texts (spaceNorm acc) t s d
        (Event.endTag name :: es) items h
      simp only [PChild.events, List.cons_append, List.append_assoc, List.cons_append,
        List.nil_append] at step ⊢
      rw [show parseLoop (.inP s d acc)
            (Event.start name [] :: (texts.map Event.text ++ (Event.endTag name :: es))) items
          = parseLoop (.inP s d (spaceNorm acc))
            (texts.map Event.text ++ (Event.endTag name :: es)) items by
        simp [parseLoop, hn, spaceNorm]]
      rw [step]
      simp [parseLoop, hg.1]
    · rw [if_neg hn] at h
      have step := parseLoop_inP_texts texts acc t s d (Event.endTag name :: es) items h
      simp only [PChild.events, List.cons_append, List.append_assoc, List.cons_append,
        List.nil_append] at step ⊢
      rw [show parseLoop (.inP s d acc)
            (Event.start name [] :: (texts.map Event.text ++ (Event.endTag name :: es))) items
          = parseLoop (.inP s d acc)
            (texts.map Event.text ++ (Event.endTag name :: es)) items by
        simp [parseLoop, hn]]
      rw [step]
      simp [parseLoop, hg.1]

/-- A run of inline `p` children transforms the accumulated text
exactly as `pAcc` describes. -/
theorem parseLoop_inP_children (children : List PChild) :
    ∀ (acc t : String) (s d : ℚ) (es : List Event) (items : List TranscriptItem),
      children.all PChild.goodB = true →
      pAcc acc children = some t →
      parseLoop (.inP s d acc) ((children.map PChild.events).flatten ++ es) items =
        parseLoop (.inP s d t) es items := by
  induction children with
  | nil =>
    intro acc t s d es items _ h
    simp only [pAcc] at h
    cases h
    simp
  | cons c rest ih =>
    intro acc t s d es items hg h
    simp only [List.all_cons, Bool.and_eq_true] at hg
    simp only [pAcc] at h
    cases hc : pChildAcc acc c with
    | none => rw [hc] at h; exact absurd h (by simp)
    | some a =>
      rw [hc] at h
      have step := parseLoop_inP_child c acc a s d
        ((rest.map PChild.events).flatten ++ es) items hg.1 hc
      simp only [List.map_cons, List.flatten_cons, List.append_assoc] at step ⊢
      rw [step]
      exact ih a t s d es items hg.2 h

/-- Lemma: `textAcc` succeeds whenever every segment unescapes. -/
theorem textAcc_isSome (segs : List String) :
    ∀ acc : String, (segs.all fun s => (xmlUnescape s).isSome) = true →
      (textAcc acc segs).isSome = true := by
  induction segs with
  | nil => intro acc _; simp [textAcc]
  | cons s rest ih =>
    intro acc hg
    simp only [List.all_cons, Bool.and_eq_true] at hg
    cases hu : xmlUnescape s with
    | none => rw [hu] at hg; simp at hg
    | some u =>
      simp only [textAcc, hu]
      exact ih _ hg.2

/-- Lemma: `pAcc` succeeds whenever every child is well formed. -/
theorem pAcc_isSome (children : List PChild) :
    ∀ acc : String, children.all PChild.goodB = true →
      (pAcc acc children).isSome = true := by
  induction children with
  | nil => intro acc _; simp [pAcc]
  | cons c rest ih =>
    intro acc hg
    simp only [List.all_cons, Bool.and_eq_true] at hg
    have hc : (pChildAcc acc c).isSome = true := by
      cases c with
      | ptext raw =>
        have := hg.1
        simp only [PChild.goodB] at this
        simpa [pChildAcc] using this
      | pelem name texts =>
        have := hg.1
        simp only [PChild.goodB, Bool.and_eq_true] at this
        exact textAcc_isSome texts _ this.2
    cases ha : pChildAcc acc c with
    | none => rw [ha] at hc; simp at hc
    | some a =>
      simp only [pAcc, ha]
      exact ih a hg.2

/-- One cue element appends exactly its `cueItem` to the item list and
returns control to the top level. -/
theorem parseLoop_cue (c : Cue) (es : List Event) (items : List TranscriptItem)
    (hg : Cue.goodB c = true) :
    parseLoop .top (c.events ++ es) items =
      parseLoop .top es (items ++ (cueItem c).toList) := by
  cases c with
  | textCue attrs segs =>
    simp only [Cue.goodB] at hg
    have hsome := textAcc_isSome segs "" hg
    cases ht : textAcc "" segs with
    | none => rw [ht] at hsome; simp at hsome
    | some t =>
      have step := parseLoop_inText_texts segs "" t
        (attrSeconds "start" attrs) (attrSeconds "dur" attrs)
        (Event.endTag "text" :: es) items ht
      simp only [Cue.events, List.cons_append, List.append_assoc, List.cons_append,
        List.nil_append] at step ⊢
      rw [show parseLoop .top
            (Event.start "text" attrs :: (segs.map Event.text ++ (Event.endTag "text" :: es))) items
          = parseLoop (.inText (attrSeconds "start" attrs) (attrSeconds "dur" attrs) "")
            (segs.map Event.text ++ (Event.endTag "text" :: es)) items by
        simp [parseLoop]]
      rw [step]
      simp [parseLoop, cueItem, ht]
  | pCue attrs children =>
    simp only [Cue.goodB] at hg
    have hsome := pAcc_isSome children "" hg
    cases ht : pAcc "" children with
    | none => rw [ht] at hsome; simp at hsome
    | some t =>
      have step := parseLoop_inP_children children "" t
        (attrMillis "t" attrs) (attrMillis "d" attrs)
        (Event.endTag "p" :: es) items hg ht
      simp only [Cue.events, List.cons_append, List.append_assoc, List.cons_append,
        List.nil_append] at step ⊢
      rw [show parseLoop .top
            (Event.start "p" attrs :: ((children.map PChild.events).flatten ++ (Event.endTag "p" :: es))) items
          = parseLoop (.inP (attrMillis "t" attrs) (attrMillis "d" attrs) "")
            ((children.map PChild.events).flatten ++ (Event.endTag "p" :: es)) items by
        simp [parseLoop]]
      rw [step]
      simp [parseLoop, cueItem, ht]
  | otherElem name =>
    simp only [Cue.goodB, Bool.and_eq_true, decide_eq_true_eq] at hg
    simp [Cue.events, parseLoop, hg.1, hg.2, cueItem]

/-- A run of well-formed cue elements appends exactly their items, in
document order. -/
theorem parseLoop_cues (d : List Cue) :
    ∀ (es : List Event) (items : List TranscriptItem), goodDoc d = true →
      parseLoop .top ((d.map Cue.events).flatten ++ es) items =
        parseLoop .top es (items ++ d.filterMap cueItem) := by
  induction d with
  | nil => intro es items _; simp
  | cons c rest ih =>
    intro es items hg
    simp only [goodDoc, List.all_cons, Bool.and_eq_true] at hg
    simp only [List.map_cons, List.flatten_cons, List.append_assoc]
    rw [parseLoop_cue c _ items hg.1, ih es _ hg.2]
    cases hc : cueItem c <;> simp [List.filterMap_cons, hc]

/-- Main lemma: `TranscriptParser::parse` on a well-formed cue document returns
exactly the cue items, in document order. -/
theorem parseLoop_docEvents (d : List Cue) (hg : goodDoc d = true) :
    parseLoop .top (docEvents d) [] = .ok (d.filterMap cueItem) := by
  simp only [docEvents]
  rw [show parseLoop .top
        (Event.start "transcript" [] :: ((d.map Cue.events).flatten ++ [Event.endTag "transcript", Event.eof])) []
      = parseLoop .top ((d.map Cue.events).flatten ++ [Event.endTag "transcript", Event.eof]) [] by
    simp [parseLoop]]
  rw [parseLoop_cues d _ [] hg]
  simp [parseLoop]

/-- Length of an order-preserving `filterMap` as a count of matching
elements. -/
theorem length_filterMap_count {α β : Type} (f : α → Option β) (l : List α) :
    (l.filterMap f).length = l.countP (fun a => (f a).isSome) := by
  induction l with
  | nil => simp
  | cons a l ih =>
    cases h : f a <;> simp [List.filterMap_cons, h, List.countP_cons, ih]

/-- Bridge: `divBy1000` is division by `1000` (`parser.rs:131,149`: `s / 1000.0`). -/
theorem divBy1000_eq (q : ℚ) : divBy1000 q = q / 1000 := by
  rw [divBy1000, Rat.divInt_eq_div]
  push_cast
  rw [← div_div, Rat.num_div_den]

/-- Lemma: `attrSeconds` of an attribute list whose timing attribute
`key` satisfies `attrValNonneg` is non-negative. -/
theorem attrSeconds_nonneg (key : String) (attrs : List (String × String))
    (h : timingAttrOk key attrs = true) :
    0 ≤ attrSeconds key attrs := by
  rw [attrSeconds]
  rw [timingAttrOk] at h
  cases hf : findAttr key attrs with
  | none => simp
  | some v =>
    rw [hf] at h
    simp only [attrValNonneg, Bool.and_eq_true] at h
    cases hp : parseF64 v with
    | none => simp [hp]
    | some q =>
      have hv := h.2
      rw [hp] at hv
      simp only [decide_eq_true_eq] at hv
      simpa [hp] using hv

/-- Lemma: `attrMillis` of an attribute list whose timing attribute
`key` satisfies `attrValNonneg` is non-negative. -/
theorem attrMillis_nonneg (key : String) (attrs : List (String × String))
    (h : timingAttrOk key attrs = true) :
    0 ≤ attrMillis key attrs := by
  rw [attrMillis]
  rw [timingAttrOk] at h
  cases hf : findAttr key attrs with
  | none => simp
  | some v =>
    rw [hf] at h
    simp only [attrValNonneg, Bool.and_eq_true] at h
    cases hp : parseF64 v with
    | none => simp [hp]
    | some q =>
      have hv := h.2
      rw [hp] at hv
      simp only [decide_eq_true_eq] at hv
      have : (0 : ℚ) ≤ divBy1000 q := by
        rw [divBy1000_eq]
        positivity
      simpa [hp] using this

/-- The start/duration carried by a cue's item are its extracted timing
values. -/
theorem cueItem_fields (c : Cue) (item : TranscriptItem) (h : cueItem c = some item) :
    (∃ attrs segs, c = Cue.textCue attrs segs ∧
      item.start = attrSeconds "start" attrs ∧ item.duration = attrSeconds "dur" attrs) ∨
    (∃ attrs children, c = Cue.pCue attrs children ∧
      item.start = attrMillis "t" attrs ∧ item.duration = attrMillis "d" attrs) := by
  cases c with
  | textCue attrs segs =>
    left
    refine ⟨attrs, segs, rfl, ?_, ?_⟩ <;>
    · simp only [cueItem, Option.bind_eq_some] at h
      obtain ⟨t, _, hfin⟩ := h
      rw [finishItem] at hfin
      split at hfin
      · simp at hfin
      · cases hfin; rfl
  | pCue attrs children =>
    right
    refine ⟨attrs, children, rfl, ?_, ?_⟩ <;>
    · simp only [cueItem, Option.bind_eq_some] at h
      obtain ⟨t, _, hfin⟩ := h
      rw [finishItem] at hfin
      split at hfin
      · simp at hfin
      · cases hfin; rfl
  | otherElem name => simp [cueItem] at h

/-! ## Claims -/

/-- C1: dialect choice does not change observable timing semantics.
For any Dialect-A attribute value parsing to `q` and Dialect-B value
parsing to `qB` with `qB / 1000 = q` (equivalent timing), the extracted
seconds coincide; and concretely, the Dialect-A document with
`start="2.5" dur="3.0"` and the Dialect-B document with `t="2500"
d="3000"` both parse to a single item with start `5/2` (= 2.5) and
duration `3` (= 3.0). -/
theorem c1_dialect_equivalence :
    (∀ (kA kB : String) (attrsA attrsB : List (String × String)) (q qB : ℚ),
      (findAttr kA attrsA).bind parseF64 = some q →
      (findAttr kB attrsB).bind parseF64 = some qB →
      divBy1000 qB = q →
      attrSeconds kA attrsA = attrMillis kB attrsB) ∧
    (TranscriptParser.new false).parse
        "<transcript><text start=\"2.5\" dur=\"3.0\">Hello world</text></transcript>" =
      .ok [⟨"Hello world", mkRat 5 2, 3⟩] ∧
    (TranscriptParser.new false).parse
        "<transcript><p t=\"2500\" d=\"3000\">Hello world</p></transcript>" =
      .ok [⟨"Hello world", mkRat 5 2, 3⟩] := by
  refine ⟨?_, rfl, rfl⟩
  intro kA kB attrsA attrsB q qB h1 h2 h3
  rw [attrSeconds, attrMillis, h1, h2]
  simp [h3]

/-- Witness for C1 at the concrete attribute lists of the claim's two
documents. -/
theorem c1_dialect_equivalence_witness :
    (findAttr "start" [("start", "2.5"), ("dur", "3.0")]).bind parseF64 = some (Rat.divInt 5 2) ∧
    (findAttr "t" [("t", "2500"), ("d", "3000")]).bind parseF64 = some (Rat.divInt 2500 1) ∧
    divBy1000 (Rat.divInt 2500 1) = Rat.divInt 5 2 ∧
    attrSeconds "start" [("start", "2.5"), ("dur", "3.0")] =
      attrMillis "t" [("t", "2500"), ("d", "3000")] :=
  ⟨by decide, by decide, by decide,
    c1_dialect_equivalence.1 "start" "t" _ _ (Rat.divInt 5 2) (Rat.divInt 2500 1)
      (by decide) (by decide) (by decide)⟩

/-- C2: the entity decode pass maps the six named entities, decimal and
hexadecimal numeric references as specified, and re-emits every
unrecognized entity name (any name other than the six that does not
begin with `#`) verbatim as `&name;`. -/
theorem c2_entity_decoding :
    decode_entity "quot" = "\"" ∧ decode_entity "amp" = "&" ∧
    decode_entity "apos" = "\x27" ∧ decode_entity "lt" = "<" ∧
    decode_entity "gt" = ">" ∧ decode_entity "nbsp" = " " ∧
    decode_html_entities "&#65;" = "A" ∧ decode_html_entities "&#x41;" = "A" ∧
    decode_html_entities "Hello &amp; world &quot;test&quot;" = "Hello & world \"test\"" ∧
    decode_html_entities "&unknown;" = "&unknown;" ∧
    (∀ name : String,
      name ∉ (["quot", "amp", "apos", "lt", "gt", "nbsp"] : List String) →
      name.data.head? ≠ some '#' →
      decode_entity name = "&" ++ name ++ ";") := by
  refine ⟨rfl, rfl, rfl, rfl, rfl, rfl, rfl, rfl, rfl, rfl, ?_⟩
  intro name h1 h2
  simp only [List.mem_cons, List.not_mem_nil, or_false, not_or] at h1
  obtain ⟨n1, n2, n3, n4, n5, n6⟩ := h1
  rw [decode_entity, if_neg n1, if_neg n2, if_neg n3, if_neg n4, if_neg n5, if_neg n6]
  cases hd : name.data with
  | nil => rfl
  | cons c rest =>
    have hc : c ≠ '#' := by
      intro hcc
      exact h2 (by rw [hd, hcc]; rfl)
    split
    · next heq => injection heq with h _; exact absurd h hc
    · next heq => injection heq with h _; exact absurd h hc
    · next heq => injection heq with h _; exact absurd h hc
    · rfl

/-- Witness for C2's universal clause at the entity name `unknown`. -/
theorem c2_entity_decoding_witness :
    ("unknown" : String) ∉ (["quot", "amp", "apos", "lt", "gt", "nbsp"] : List String) ∧
    ("unknown" : String).data.head? ≠ some '#' ∧
    decode_entity "unknown" = "&unknown;" :=
  ⟨by decide, by decide,
    c2_entity_decoding.2.2.2.2.2.2.2.2.2.2 "unknown" (by decide) (by decide)⟩

/-- C3 counterexample: the document
`<transcript><text start="-1.5" dur="2.0">Hi</text></transcript>`
parses successfully to an item whose start time is `-3/2` (= -1.5),
which is negative — the parser performs no clamping, so the claim that
every item has non-negative start and duration is false. -/
theorem c3_counterexample :
    (TranscriptParser.new false).parse
        "<transcript><text start=\"-1.5\" dur=\"2.0\">Hi</text></transcript>" =
      .ok [⟨"Hi", Rat.divInt (-3) 2, 2⟩] ∧
    Rat.divInt (-3) 2 < 0 :=
  ⟨rfl, by decide⟩

/-- C3 (amended): every item produced from a well-formed cue document
whose timing attribute values (`start`/`dur` resp. `t`/`d`) are none
of Rust's non-finite literals and, when they parse at all, are
non-negative has non-negative start and duration; the timing values
otherwise propagate unchanged, so negative (or negative-infinite)
attribute values yield negative fields (see the counterexample). -/
theorem c3_nonneg_amended (d : List Cue) (hg : goodDoc d = true)
    (hn : d.all Cue.attrsNonnegB = true)
    (items : List TranscriptItem)
    (hp : parseLoop .top (docEvents d) [] = .ok items) :
    ∀ item ∈ items, 0 ≤ item.start ∧ 0 ≤ item.duration := by
  rw [parseLoop_docEvents d hg] at hp
  cases hp
  intro item hitem
  obtain ⟨c, hc, hci⟩ := List.mem_filterMap.mp hitem
  have hcn : Cue.attrsNonnegB c = true := (List.all_eq_true.mp hn) c hc
  rcases cueItem_fields c item hci with ⟨attrs, segs, hceq, hs, hd⟩ | ⟨attrs, children, hceq, hs, hd⟩
  · subst hceq
    rw [Cue.attrsNonnegB, Bool.and_eq_true] at hcn
    exact ⟨hs ▸ attrSeconds_nonneg _ _ hcn.1, hd ▸ attrSeconds_nonneg _ _ hcn.2⟩
  · subst hceq
    rw [Cue.attrsNonnegB, Bool.and_eq_true] at hcn
    exact ⟨hs ▸ attrMillis_nonneg _ _ hcn.1, hd ▸ attrMillis_nonneg _ _ hcn.2⟩

/-- Witness for the amended C3 at a concrete one-cue document. -/
theorem c3_nonneg_amended_witness :
    goodDoc [Cue.textCue [("start", "2.5"), ("dur", "3.0")] ["Hi"]] = true ∧
    [Cue.textCue [("start", "2.5"), ("dur", "3.0")] ["Hi"]].all Cue.attrsNonnegB = true ∧
    parseLoop .top (docEvents [Cue.textCue [("start", "2.5"), ("dur", "3.0")] ["Hi"]]) [] =
      .ok [⟨"Hi", Rat.divInt 5 2, 3⟩] ∧
    ∀ item ∈ [(⟨"Hi", Rat.divInt 5 2, 3⟩ : TranscriptItem)], 0 ≤ item.start ∧ 0 ≤ item.duration :=
  ⟨by decide, by decide, rfl,
    c3_nonneg_amended [Cue.textCue [("start", "2.5"), ("dur", "3.0")] ["Hi"]]
      (by decide) (by decide) [⟨"Hi", Rat.divInt 5 2, 3⟩] rfl⟩

/-- C4: parsing a well-formed cue document yields exactly the cues'
items in document order (a straight `filterMap`, no re-sorting), whose
count is the number of cue elements with non-empty decoded trimmed
text; a cue whose decoded trimmed text is empty contributes no item. -/
theorem c4_document_order (d : List Cue) (hg : goodDoc d = true) :
    parseLoop .top (docEvents d) [] = .ok (d.filterMap cueItem) ∧
    (d.filterMap cueItem).length = d.countP (fun c => (cueItem c).isSome) ∧
    (∀ attrs segs t, textAcc "" segs = some t → (rustTrim t).data.isEmpty = true →
      cueItem (Cue.textCue attrs segs) = none) ∧
    (∀ attrs children t, pAcc "" children = some t → (rustTrim t).data.isEmpty = true →
      cueItem (Cue.pCue attrs children) = none) := by
  refine ⟨parseLoop_docEvents d hg, length_filterMap_count cueItem d, ?_, ?_⟩
  · intro attrs segs t ht hempty
    simp [cueItem, ht, finishItem, List.isEmpty_iff.mp hempty]
  · intro attrs children t ht hempty
    simp [cueItem, ht, finishItem, List.isEmpty_iff.mp hempty]

/-- Witness for C4: a document with one non-empty `text` cue, one
whitespace-only `text` cue, one non-empty `p` cue and one foreign
element yields exactly the two non-empty items, in document order. -/
theorem c4_document_order_witness :
    goodDoc [Cue.textCue [("start", "1.5")] ["One"], Cue.textCue [] ["  "],
             Cue.pCue [("t", "2000")] [PChild.ptext "Two"], Cue.otherElem "style"] = true ∧
    parseLoop .top (docEvents [Cue.textCue [("start", "1.5")] ["One"], Cue.textCue [] ["  "],
        Cue.pCue [("t", "2000")] [PChild.ptext "Two"], Cue.otherElem "style"]) [] =
      .ok ([Cue.textCue [("start", "1.5")] ["One"], Cue.textCue [] ["  "],
        Cue.pCue [("t", "2000")] [PChild.ptext "Two"], Cue.otherElem "style"].filterMap cueItem) ∧
    ([Cue.textCue [("start", "1.5")] ["One"], Cue.textCue [] ["  "],
        Cue.pCue [("t", "2000")] [PChild.ptext "Two"], Cue.otherElem "style"].filterMap cueItem) =
      [⟨"One", Rat.divInt 3 2, 0⟩, ⟨"Two", Rat.divInt 2 1, 0⟩] :=
  ⟨by decide,
    (c4_document_order [Cue.textCue [("start", "1.5")] ["One"], Cue.textCue [] ["  "],
        Cue.pCue [("t", "2000")] [PChild.ptext "Two"], Cue.otherElem "style"] (by decide)).1,
    by decide⟩

/-- C5: an unterminated cue document fails with an error and yields no
truncated item list: concretely for the claim's example, and in
general for any document consisting of well-formed cues followed by a
cue element that is still open when the input ends. -/
theorem c5_malformed_error :
    (TranscriptParser.new false).parse "<transcript><text>Unclosed tag" =
      .error "Unexpected EOF in text element" ∧
    (∀ (d : List Cue) (attrs : List (String × String)) (segs : List String) (t : String),
      goodDoc d = true → textAcc "" segs = some t →
      parseLoop .top (Event.start "transcript" [] :: ((d.map Cue.events).flatten ++
          (Event.start "text" attrs :: (segs.map Event.text ++ [Event.eof])))) [] =
        .error "Unexpected EOF in text element") ∧
    (∀ (d : List Cue) (attrs : List (String × String)) (children : List PChild) (t : String),
      goodDoc d = true → children.all PChild.goodB = true → pAcc "" children = some t →
      parseLoop .top (Event.start "transcript" [] :: ((d.map Cue.events).flatten ++
          (Event.start "p" attrs :: ((children.map PChild.events).flatten ++ [Event.eof])))) [] =
        .error "Unexpected EOF in p element") := by
  refine ⟨rfl, ?_, ?_⟩
  · intro d attrs segs t hg ht
    rw [show parseLoop .top (Event.start "transcript" [] :: ((d.map Cue.events).flatten ++
          (Event.start "text" attrs :: (segs.map Event.text ++ [Event.eof])))) []
        = parseLoop .top ((d.map Cue.events).flatten ++
          (Event.start "text" attrs :: (segs.map Event.text ++ [Event.eof]))) [] by
      simp [parseLoop]]
    rw [parseLoop_cues d _ [] hg]
    rw [show parseLoop .top
          (Event.start "text" attrs :: (segs.map Event.text ++ [Event.eof])) ([] ++ d.filterMap cueItem)
        = parseLoop (.inText (attrSeconds "start" attrs) (attrSeconds "dur" attrs) "")
          (segs.map Event.text ++ [Event.eof]) ([] ++ d.filterMap cueItem) by
      simp [parseLoop]]
    rw [parseLoop_inText_texts segs "" t _ _ _ _ ht]
    rfl
  · intro d attrs children t hg hcg ht
    rw [show parseLoop .top (Event.start "transcript" [] :: ((d.map Cue.events).flatten ++
          (Event.start "p" attrs :: ((children.map PChild.events).flatten ++ [Event.eof])))) []
        = parseLoop .top ((d.map Cue.events).flatten ++
          (Event.start "p" attrs :: ((children.map PChild.events).flatten ++ [Event.eof]))) [] by
      simp [parseLoop]]
    rw [parseLoop_cues d _ [] hg]
    rw [show parseLoop .top
          (Event.start "p" attrs :: ((children.map PChild.events).flatten ++ [Event.eof])) ([] ++ d.filterMap cueItem)
        = parseLoop (.inP (attrMillis "t" attrs) (attrMillis "d" attrs) "")
          ((children.map PChild.events).flatten ++ [Event.eof]) ([] ++ d.filterMap cueItem) by
      simp [parseLoop]]
    rw [parseLoop_inP_children children "" t _ _ _ _ hcg ht]
    rfl

/-- Witness for C5's universal clauses at a document with one complete
cue before the unterminated element. -/
theorem c5_malformed_error_witness :
    goodDoc [Cue.textCue [] ["Done"]] = true ∧
    textAcc "" ["Unclosed tag"] = some "Unclosed tag" ∧
    parseLoop .top (Event.start "transcript" [] :: (([Cue.textCue [] ["Done"]].map Cue.events).flatten ++
        (Event.start "text" [] :: (["Unclosed tag"].map Event.text ++ [Event.eof])))) [] =
      .error "Unexpected EOF in text element" :=
  ⟨by decide, by decide,
    (c5_malformed_error.2.1) [Cue.textCue [] ["Done"]] [] ["Unclosed tag"] "Unclosed tag"
      (by decide) (by decide)⟩

/-- Rewriting `filterMap` over a single element. -/
theorem filterMap_singleton {α β : Type} (f : α → Option β) (a : α) :
    List.filterMap f [a] = (f a).toList := by
  cases h : f a <;> simp [List.filterMap_cons, h]

/-- C6: the timing fields of a parsed cue are exactly the attribute
lookup composed with number parsing, defaulting to `0` when the
attribute is absent or unparsable; Dialect-B values are divided by
`1000` (`divBy1000 q = q / 1000`).  Concretely, an unparsable `start`
and a missing `dur` both yield `0`, and `t="2500"` yields `5/2`
seconds. -/
theorem c6_timing_defaults :
    (∀ (attrs : List (String × String)) (segs : List String) (t : String),
      segs.all (fun s => (xmlUnescape s).isSome) = true →
      textAcc "" segs = some t →
      parseLoop .top (docEvents [Cue.textCue attrs segs]) [] =
        .ok ((finishItem (((findAttr "start" attrs).bind parseF64).getD 0)
                         (((findAttr "dur" attrs).bind parseF64).getD 0) t).toList)) ∧
    (∀ (attrs : List (String × String)) (children : List PChild) (t : String),
      children.all PChild.goodB = true →
      pAcc "" children = some t →
      parseLoop .top (docEvents [Cue.pCue attrs children]) [] =
        .ok ((finishItem ((((findAttr "t" attrs).bind parseF64).map divBy1000).getD 0)
                         ((((findAttr "d" attrs).bind parseF64).map divBy1000).getD 0) t).toList)) ∧
    (∀ q : ℚ, divBy1000 q = q / 1000) ∧
    (TranscriptParser.new false).parse "<transcript><text start=\"abc\">Hi</text></transcript>" =
      .ok [⟨"Hi", 0, 0⟩] ∧
    (TranscriptParser.new false).parse "<transcript><p t=\"2500\">Ho</p></transcript>" =
      .ok [⟨"Ho", mkRat 5 2, 0⟩] := by
  refine ⟨?_, ?_, divBy1000_eq, rfl, rfl⟩
  · intro attrs segs t hgs ht
    have hg : goodDoc [Cue.textCue attrs segs] = true := by
      simp [goodDoc, Cue.goodB, hgs]
    rw [parseLoop_docEvents _ hg]
    simp [filterMap_singleton, cueItem, ht, attrSeconds]
  · intro attrs children t hgc ht
    have hg : goodDoc [Cue.pCue attrs children] = true := by
      simp [goodDoc, Cue.goodB, hgc]
    rw [parseLoop_docEvents _ hg]
    simp [filterMap_singleton, cueItem, ht, attrMillis]

/-- Witness for C6 at an unparsable `start`, a missing `dur`, and a
millisecond `t`. -/
theorem c6_timing_defaults_witness :
    (["Hi"] : List String).all (fun s => (xmlUnescape s).isSome) = true ∧
    textAcc "" ["Hi"] = some "Hi" ∧
    parseLoop .top (docEvents [Cue.textCue [("start", "abc")] ["Hi"]]) [] =
      .ok ((finishItem (((findAttr "start" [("start", "abc")]).bind parseF64).getD 0)
                       (((findAttr "dur" [("start", "abc")]).bind parseF64).getD 0) "Hi").toList) ∧
    ((finishItem (((findAttr "start" [("start", "abc")]).bind parseF64).getD 0)
                 (((findAttr "dur" [("start", "abc")]).bind parseF64).getD 0) "Hi").toList) =
      [⟨"Hi", 0, 0⟩] :=
  ⟨by decide, by decide,
    c6_timing_defaults.1 [("start", "abc")] ["Hi"] "Hi" (by decide) (by decide),
    by decide⟩

/-- C7 counterexample: a self-closing `<br/>` inside a `p` element is
reported by the reader as an `Empty` event, which `parser.rs:167-177`
does not match (only `Event::Start` is handled), so no space is
inserted: `Hello<br/>world` parses to `Helloworld`, not
`Hello world` — the claim's "every nested child element representing a
line break" fails for this serialization. -/
theorem c7_counterexample :
    (TranscriptParser.new false).parse
        "<transcript><p t=\"0\" d=\"1000\">Hello<br/>world</p></transcript>" =
      .ok [⟨"Helloworld", 0, 1⟩] ∧
    ("Helloworld" : String) ≠ "Hello world" :=
  ⟨rfl, by decide⟩

/-- C7 (amended): inside a `p` element, each nested `s` or `br` child
reported as a start tag (serialized `<s>…</s>` or `<br></br>`)
normalizes to exactly one inserted space — none when the accumulated
text already ends in a space (`spaceNorm`); concretely,
`Hello<br></br>world` gives `Hello world` with a single space, and a
second consecutive `br` inserts nothing further.  A self-closing
`<br/>` is reported as an `Empty` event, which the element loop
ignores: no space is inserted (last two clauses, see the
counterexample). -/
theorem c7_space_normalization :
    (∀ (s d : ℚ) (acc name : String) (attrs : List (String × String))
        (es : List Event) (items : List TranscriptItem),
      name = "s" ∨ name = "br" →
      parseLoop (.inP s d acc) (Event.start name attrs :: es) items =
        parseLoop (.inP s d (spaceNorm acc)) es items) ∧
    (∀ acc : String, endsWithSpace acc = true → spaceNorm acc = acc) ∧
    (∀ acc : String, endsWithSpace acc = false → spaceNorm acc = acc ++ " ") ∧
    (TranscriptParser.new false).parse
        "<transcript><p t=\"0\" d=\"1000\">Hello<br></br>world</p></transcript>" =
      .ok [⟨"Hello world", 0, 1⟩] ∧
    (TranscriptParser.new false).parse
        "<transcript><p t=\"0\" d=\"1000\">Hello<br></br><br></br>world</p></transcript>" =
      .ok [⟨"Hello world", 0, 1⟩] ∧
    (∀ (s d : ℚ) (acc name : String) (attrs : List (String × String))
        (es : List Event) (items : List TranscriptItem),
      parseLoop (.inP s d acc) (Event.empty name attrs :: es) items =
        parseLoop (.inP s d acc) es items) ∧
    (TranscriptParser.new false).parse
        "<transcript><p t=\"0\" d=\"1000\">Hello<br/>world</p></transcript>" =
      .ok [⟨"Helloworld", 0, 1⟩] := by
  refine ⟨?_, ?_, ?_, rfl, rfl, ?_, rfl⟩
  · intro s d acc name attrs es items h
    rcases h with h | h <;> simp [parseLoop, h, spaceNorm]
  · intro acc h; simp [spaceNorm, h]
  · intro acc h; simp [spaceNorm, h]
  · intro s d acc name attrs es items
    simp [parseLoop]

/-- Witness for C7's universal clauses at `name := "br"` and the two
space states of the accumulator. -/
theorem c7_space_normalization_witness :
    (("br" : String) = "s" ∨ ("br" : String) = "br") ∧
    parseLoop (.inP 0 0 "Hello") (Event.start "br" [] :: [Event.eof]) [] =
      parseLoop (.inP 0 0 (spaceNorm "Hello")) [Event.eof] [] ∧
    endsWithSpace "Hello " = true ∧ spaceNorm "Hello " = "Hello " ∧
    endsWithSpace "Hello" = false ∧ spaceNorm "Hello" = "Hello" ++ " " :=
  ⟨by decide,
    c7_space_normalization.1 0 0 "Hello" "br" [] [Event.eof] [] (by decide),
    by decide,
    c7_space_normalization.2.1 "Hello " (by decide),
    by decide,
    c7_space_normalization.2.2.1 "Hello" (by decide)⟩

/-- C8: the `preserve_formatting` constructor flag is inert — the
stored field is never read, so parsing is identical for both flag
values on every input document. -/
theorem c8_flag_inert :
    ∀ xml : String,
      (TranscriptParser.new true).parse xml = (TranscriptParser.new false).parse xml :=
  fun _ => rfl

/-- C9: the playlist loop reports a failing video's error at the
per-video boundary and continues: every discovered video id is
attempted, in order, whatever mix of successes and failures `process`
produces, and the loop itself always completes with `Ok(())`. -/
theorem c9_playlist_error_isolation :
    ∀ (process : String → Except TranscriptError Unit) (ids : List String),
      (playlistRun process ids).2 = .ok () ∧
      (playlistRun process ids).1.map Prod.fst = ids := by
  intro process ids
  induction ids with
  | nil => simp [playlistRun]
  | cons v rest ih =>
    cases h : process v <;> simp [playlistRun, h, ih.1, ih.2]

set_option maxRecDepth 4000 in
/-- C10: evaluation of `sanitize_filename` at the failing input.  The
title `"a"` followed by one hundred copies of `é` (U+00E9, a
two-byte, alphanumeric character) survives the character map unchanged
and is 201 bytes long, so the truncation step `&sanitized[..200]`
slices at byte 200 — the middle of the final `é` — and panics
(`none`); on inputs where byte 200 is a character boundary the
function returns normally (second clause). -/
theorem c10_sanitize_panics :
    sanitize_filename (String.mk ('a' :: List.replicate 100 (Char.ofNat 233))) = none ∧
    sanitize_filename "Hello: World!" = some "Hello_World" := by
  constructor
  · decide
  · decide
